import Mathlib

/-
Verification of the Craftserve/chunked-uploader service (index.go) against its
natural-language specification.

The service is embedded shallowly:
- a file's on-disk content is a list of byte values (Nat, each meant < 256);
- the afero filesystem is an association list from paths to file records
  (content bytes plus a modification time, as used by Cleanup);
- the sha256 primitive is a parameter H : List Nat -> List Nat (the spec
  declares the raw cryptographic hash out of scope, "treated as a supplied
  function"); hex.EncodeToString is modelled concretely;
- uuid.New() is modelled by passing the fresh identifier explicitly;
- time.Now() is modelled by passing the current clock value explicitly.

Each definition carries a comment naming the Go function of index.go
(or utils/checksum.go) that it embeds.
-/

namespace ChunkedUploader

/-- A positioned write, as performed by writePart (index.go:61-94):
Seek(offset, SeekStart) followed by io.Copy of the chunk. Writing past the
current end of file zero-fills the gap, POSIX-style. -/
def writeBytes (file : List Nat) (off : Nat) (data : List Nat) : List Nat :=
  file.take off ++ (List.replicate (off - file.length) 0 ++ (data ++ file.drop (off + data.length)))

/-- One on-disk file: its content bytes and its modification time
(the ModTime consulted by Cleanup; the OS stamps it on every write). -/
structure FileData where
  bytes : List Nat
  mtime : Nat
deriving DecidableEq, Repr

/-- The afero filesystem: an association list from paths to files. -/
abbrev Fs := List (String × FileData)

/-- Path lookup (first binding wins; the service keeps paths unique). -/
def fsFind (fs : Fs) (p : String) : Option FileData :=
  match fs with
  | [] => none
  | (q, f) :: rest => if q = p then some f else fsFind rest p

/-- Store a file at a path, replacing any existing binding. -/
def fsInsert (fs : Fs) (p : String) (f : FileData) : Fs :=
  match fs with
  | [] => [(p, f)]
  | (q, g) :: rest => if q = p then (p, f) :: rest else (q, g) :: fsInsert rest p f

/-- Delete every binding of a path. -/
def fsRemove (fs : Fs) (p : String) : Fs :=
  fs.filter (fun e => !(e.1 = p : Bool))

/-- The lowercase digit table of encoding/hex. -/
def hexDigits : String := "0123456789abcdef"

def hexDigitChar (n : Nat) : Char := hexDigits.data.getD n '0'

/-- One byte as two lowercase hex characters (high nibble first), as
encoding/hex writes it. A byte value is below 256. -/
def hexEncodeByte (b : Nat) : List Char :=
  [hexDigitChar (b % 256 / 16), hexDigitChar (b % 16)]

/-- hex.EncodeToString over a byte sequence. -/
def hexEncode (l : List Nat) : String :=
  ⟨(l.map hexEncodeByte).flatten⟩

/-- The error kinds the service can surface. Each constructor corresponds to
one failure site in index.go (the Go code reports them as fmt.Errorf strings). -/
inductive UploadError where
  /-- fs.OpenFile on a path that does not exist (writePart, ComputeChecksum,
  Rename on a missing source). -/
  | fileNotFound
  /-- file.Seek to a negative offset (writePart). -/
  | seekFailed
  /-- file.Truncate to a negative size (createUpload). -/
  | truncateFailed
  /-- the string "checksum does not match expected checksum" (verifyUpload). -/
  | checksumMismatch
  /-- the handler response "Invalid file_size, must be a positive integer". -/
  | invalidFileSize
  /-- the handler response "checksum is required". -/
  | checksumRequired
deriving DecidableEq, Repr

/-- Decidable equality of call results, so the theorems can be evaluated on
closed inputs. -/
instance {ε α : Type} [DecidableEq ε] [DecidableEq α] : DecidableEq (Except ε α) :=
  fun a b =>
  match a, b with
  | .ok x, .ok y =>
    if h : x = y then isTrue (congrArg Except.ok h)
    else isFalse (fun hc => h (Except.ok.inj hc))
  | .error x, .error y =>
    if h : x = y then isTrue (congrArg Except.error h)
    else isFalse (fun hc => h (Except.error.inj hc))
  | .ok _, .error _ => isFalse (fun hc => Except.noConfusion hc)
  | .error _, .ok _ => isFalse (fun hc => Except.noConfusion hc)

/-- getUploadFilePath (index.go:376-378): filepath.Join(".pending", uploadId). -/
def getUploadFilePath (uploadId : String) : String :=
  ".pending/" ++ uploadId

/-- getUploadPath (index.go:380-382). -/
def getUploadPath : String := ".pending"

/-- createFile (index.go:352-355): MkdirAll then OpenFile with
O_CREATE and O_RDWR — an existing file is kept, a missing one is created
empty. Returns the filesystem after the call and the opened file's bytes. -/
def createFile (fs : Fs) (path : String) (now : Nat) : Fs × List Nat :=
  match fsFind fs path with
  | some f => (fs, f.bytes)
  | none => (fsInsert fs path ⟨[], now⟩, [])

/-- file.Truncate(size) as used by createUpload: a negative size fails,
otherwise the content is cut or zero-extended to the requested size. -/
def truncateBytes (bytes : List Nat) (size : Int) : Except UploadError (List Nat) :=
  if size < 0 then .error .truncateFailed
  else .ok (bytes.take size.toNat ++ List.replicate (size.toNat - bytes.length) 0)

/-- createUpload (index.go:42-58): create the pending file, then preallocate
it with Truncate(maxSize). The filesystem is returned even on failure, because
in Go a Truncate failure leaves the already-created file behind. -/
def createUpload (fs : Fs) (uploadId : String) (maxSize : Int) (now : Nat) :
    Fs × Except UploadError Unit :=
  let r := createFile fs (getUploadFilePath uploadId) now
  match truncateBytes r.2 maxSize with
  | .error e => (r.1, .error e)
  | .ok b => (fsInsert r.1 (getUploadFilePath uploadId) ⟨b, now⟩, .ok ())

/-- writePart (index.go:61-94), with the sha256 primitive as parameter H:
OpenFile O_WRONLY (fails if the path is absent), an optional chunk hasher,
Seek(offset, SeekStart) (fails for a negative offset), then io.Copy of the
chunk data. On success the optional per-chunk hex digest is returned. -/
def writePart (H : List Nat → List Nat) (fs : Fs) (path : String) (data : List Nat)
    (offset : Int) (computeHash : Bool) (now : Nat) :
    Fs × Except UploadError (Option String) :=
  match fsFind fs path with
  | none => (fs, .error .fileNotFound)
  | some f =>
    if offset < 0 then (fs, .error .seekFailed)
    else
      (fsInsert fs path ⟨writeBytes f.bytes offset.toNat data, now⟩,
       .ok (if computeHash then some (hexEncode (H data)) else none))

/-- ComputeChecksum (utils/checksum.go:11-24), with the sha256 primitive as
parameter H: open the file (fails if absent), stream its whole content
through the hash, return the hex digest. -/
def ComputeChecksum (H : List Nat → List Nat) (fs : Fs) (path : String) :
    Except UploadError String :=
  match fsFind fs path with
  | none => .error .fileNotFound
  | some f => .ok (hexEncode (H f.bytes))

/-- ComputeChecksum instrumented with the number of artifact hash
computations it performs: one when the artifact was opened and streamed,
zero when opening failed. First component agrees with ComputeChecksum. -/
def computeChecksumCounted (H : List Nat → List Nat) (fs : Fs) (path : String) :
    Except UploadError String × Nat :=
  match fsFind fs path with
  | none => (.error .fileNotFound, 0)
  | some f => (.ok (hexEncode (H f.bytes)), 1)

/-- verifyUpload (index.go:115-128): compute the pending artifact's checksum
and compare it, by exact string equality, with the expected checksum.
Read-only: it never modifies the filesystem. -/
def verifyUpload (H : List Nat → List Nat) (fs : Fs) (uploadId : String)
    (expectedChecksum : String) : Except UploadError Unit :=
  match ComputeChecksum H fs (getUploadFilePath uploadId) with
  | .error e => .error e
  | .ok checksum =>
    if checksum ≠ expectedChecksum then .error .checksumMismatch else .ok ()

/-- verifyUpload paired with the number of artifact hash computations the
call performs (it invokes utils.ComputeChecksum exactly once; no coalescing
or memoisation exists anywhere in the call path — the singleflight group of
the historical variant is declared but never used). -/
def verifyUploadCounted (H : List Nat → List Nat) (fs : Fs) (uploadId : String)
    (expectedChecksum : String) : Except UploadError Unit × Nat :=
  match computeChecksumCounted H fs (getUploadFilePath uploadId) with
  | (.error e, k) => (.error e, k)
  | (.ok checksum, k) =>
    (if checksum ≠ expectedChecksum then .error .checksumMismatch else .ok (), k)

/-- CreateUpload (index.go:130-137): generate an uploadId (modelled by the
freshId argument) and create the preallocated pending file. -/
def CreateUpload (fs : Fs) (freshId : String) (fileSize : Int) (now : Nat) :
    Fs × Except UploadError String :=
  let r := createUpload fs freshId fileSize now
  match r.2 with
  | .error e => (r.1, .error e)
  | .ok _ => (r.1, .ok freshId)

/-- UploadChunk (index.go:139-142): writePart on the pending path. -/
def UploadChunk (H : List Nat → List Nat) (fs : Fs) (uploadId : String)
    (data : List Nat) (offset : Int) (computeHash : Bool) (now : Nat) :
    Fs × Except UploadError (Option String) :=
  writePart H fs (getUploadFilePath uploadId) data offset computeHash now

/-- FinishUpload (index.go:144-146): exactly verifyUpload, nothing more. -/
def FinishUpload (H : List Nat → List Nat) (fs : Fs) (uploadId : String)
    (expectedChecksum : String) : Except UploadError Unit :=
  verifyUpload H fs uploadId expectedChecksum

/-- RenameUploadedFile (index.go:158-167): MkdirAll on the destination's
parent (always succeeds in this flat-path model), then Rename of the pending
artifact to the new path (fails if the source is absent). -/
def RenameUploadedFile (fs : Fs) (uploadId : String) (newPath : String) :
    Fs × Except UploadError Unit :=
  let uploadPath := getUploadFilePath uploadId
  match fsFind fs uploadPath with
  | none => (fs, .error .fileNotFound)
  | some f => (fsInsert (fsRemove fs uploadPath) newPath f, .ok ())

/-- CreateUploadHandler (index.go:182-204), transport decoding omitted:
reject a file_size at most zero before any mutation, otherwise CreateUpload. -/
def CreateUploadHandler (fs : Fs) (freshId : String) (fileSize : Int) (now : Nat) :
    Fs × Except UploadError String :=
  if fileSize ≤ 0 then (fs, .error .invalidFileSize)
  else CreateUpload fs freshId fileSize now

/-- FinishUploadHandler (index.go:267-300), transport decoding omitted:
reject an empty checksum, run FinishUpload, and on success answer with the
PENDING path of the artifact; the filesystem is never modified. -/
def FinishUploadHandler (H : List Nat → List Nat) (fs : Fs) (uploadId : String)
    (checksum : String) : Fs × Except UploadError String :=
  if checksum = "" then (fs, .error .checksumRequired)
  else
    match FinishUpload H fs uploadId checksum with
    | .error e => (fs, .error e)
    | .ok _ => (fs, .ok (getUploadFilePath uploadId))

/-- Character-list version of a path-starts-with test (used to model which
paths lie under the ".pending" tree that Cleanup walks). -/
def startsWithChars : List Char → List Char → Bool
  | [], _ => true
  | _ :: _, [] => false
  | c :: cs, d :: ds => decide (c = d) && startsWithChars cs ds

/-- A path inside the pending namespace walked by Cleanup. -/
def isPendingPath (p : String) : Bool :=
  startsWithChars ".pending/".data p.data

/-- Cleanup (index.go:97-112): afero.Walk over the ".pending" directory,
removing every entry whose ModTime is before now minus the given duration.
The walk visits the directory itself first; when the directory's own mtime is
stale and it still contains files, fs.Remove on the non-empty directory fails
and that error, returned from the walk callback, aborts the whole walk before
any file is visited, so nothing is removed. Otherwise every stale pending
file is removed and everything else is untouched. -/
def Cleanup (fs : Fs) (rootMtime : Nat) (now : Nat) (duration : Nat) : Fs :=
  let timeLimit := now - duration
  if decide (rootMtime < timeLimit) && fs.any (fun e => isPendingPath e.1) then fs
  else fs.filter (fun e => !(isPendingPath e.1 && decide (e.2.mtime < timeLimit)))

/-- The number of chunks a file of size S splits into at chunk size C
(ceiling division, matching the clients' Math.ceil(size / CHUNK_SIZE)). -/
def numChunks (S C : Nat) : Nat := (S + C - 1) / C

/-- Chunk number j of a source file at chunk size C: the byte range
starting at offset j*C, of length C except for a truncated final chunk. -/
def chunkOf (src : List Nat) (C j : Nat) : List Nat :=
  (src.drop (j * C)).take C

/-- Upload the chunks of src listed in order, each at its own byte offset via
UploadChunk, stopping at the first failing write. -/
def uploadChunksExc (H : List Nat → List Nat) (fs : Fs) (uploadId : String)
    (src : List Nat) (C : Nat) (order : List Nat) (now : Nat) :
    Except UploadError Fs :=
  match order with
  | [] => .ok fs
  | j :: rest =>
    match UploadChunk H fs uploadId (chunkOf src C j) ((j * C : Nat) : Int) false now with
    | (f2, .ok _) => uploadChunksExc H f2 uploadId src C rest now
    | (_, .error e) => .error e

/-- The pure effect of uploading the listed chunks onto a byte sequence:
each chunk lands at its own byte offset via a positioned write. -/
def applyChunks (src : List Nat) (C : Nat) (order : List Nat) (b : List Nat) :
    List Nat :=
  match order with
  | [] => b
  | j :: rest => applyChunks src C rest (writeBytes b (j * C) (chunkOf src C j))

/-- The outcomes of n back-to-back FinishUpload calls on the same session
(each handler invocation verifies independently; they share no state). -/
def finishCallResults (H : List Nat → List Nat) (fs : Fs) (uploadId : String)
    (expectedChecksum : String) (n : Nat) : List (Except UploadError Unit) :=
  (List.range n).map (fun _ => (verifyUploadCounted H fs uploadId expectedChecksum).1)

/-- The total number of artifact hash computations performed by n
back-to-back FinishUpload calls on the same session. -/
def finishCallHashCount (H : List Nat → List Nat) (fs : Fs) (uploadId : String)
    (expectedChecksum : String) (n : Nat) : Nat :=
  ((List.range n).map (fun _ => (verifyUploadCounted H fs uploadId expectedChecksum).2)).sum

/-- A concrete stand-in for the supplied hash primitive, used to evaluate
the theorems on closed inputs (any function works; sha256 is out of scope
per the spec). -/
def sampleHash : List Nat → List Nat := fun l => l

theorem length_writeBytes (f : List Nat) (off : Nat) (d : List Nat) :
    (writeBytes f off d).length = max f.length (off + d.length) := by
  simp [writeBytes]
  omega

/-- Pointwise characterisation of a positioned write:
indices below the offset keep their old value (or the zero fill),
indices inside the written range take the chunk's bytes,
indices at or beyond the end of the written range keep their old value. -/
theorem writeBytes_getElem? (f : List Nat) (off : Nat) (d : List Nat) (i : Nat) :
    (writeBytes f off d)[i]? =
      if i < off then (if i < f.length then f[i]? else some 0)
      else if i < off + d.length then d[i - off]?
      else f[i]? := by
  have hlen : (f.take off).length = min off f.length := by simp
  unfold writeBytes
  rcases Nat.lt_or_ge i off with hi | hi
  · rcases Nat.lt_or_ge i f.length with hif | hif
    · have h1 : i < (f.take off).length := by omega
      rw [List.getElem?_append_left h1, List.getElem?_take_of_lt hi]
      simp [hi, hif]
    · have h1 : (f.take off).length ≤ i := by omega
      rw [List.getElem?_append_right h1]
      have h2 : i - (f.take off).length < (List.replicate (off - f.length) 0).length := by
        simp; omega
      have h3 : i - (f.take off).length < off - f.length := by
        simpa using h2
      rw [List.getElem?_append_left h2, List.getElem?_replicate, if_pos h3, if_pos hi,
        if_neg (Nat.not_lt.mpr hif)]
  · have h1 : (f.take off).length ≤ i := by omega
    rw [List.getElem?_append_right h1]
    have hrep : (List.replicate (off - f.length) 0).length = off - f.length := by simp
    have h2 : (List.replicate (off - f.length) 0).length ≤ i - (f.take off).length := by
      rw [hrep]; omega
    rw [List.getElem?_append_right h2]
    have hkey : i - (f.take off).length - (List.replicate (off - f.length) 0).length
        = i - off := by
      rw [hrep, hlen]; omega
    rw [hkey]
    rcases Nat.lt_or_ge i (off + d.length) with him | him
    · have h3 : i - off < d.length := by omega
      rw [List.getElem?_append_left h3]
      simp [Nat.not_lt.mpr hi, him]
    · have h3 : d.length ≤ i - off := by omega
      rw [List.getElem?_append_right h3, List.getElem?_drop]
      have h4 : off + d.length + (i - off - d.length) = i := by omega
      rw [h4]
      simp [Nat.not_lt.mpr hi, Nat.not_lt.mpr him]

/-- Rewriting the same range with the same bytes is a no-op on the bytes. -/
theorem writeBytes_idem (f : List Nat) (off : Nat) (d : List Nat) :
    writeBytes (writeBytes f off d) off d = writeBytes f off d := by
  apply List.ext_getElem?
  intro i
  rw [writeBytes_getElem? (writeBytes f off d) off d i]
  rcases Nat.lt_or_ge i off with hi | hi
  · have hig : i < (writeBytes f off d).length := by
      rw [length_writeBytes]; omega
    simp [hi, hig]
  · rcases Nat.lt_or_ge i (off + d.length) with him | him
    · rw [if_neg (Nat.not_lt.mpr hi), if_pos him, writeBytes_getElem? f off d i,
        if_neg (Nat.not_lt.mpr hi), if_pos him]
    · rw [if_neg (Nat.not_lt.mpr hi), if_neg (Nat.not_lt.mpr him)]

theorem fsFind_insert_self (fs : Fs) (p : String) (f : FileData) :
    fsFind (fsInsert fs p f) p = some f := by
  induction fs with
  | nil => simp [fsInsert, fsFind]
  | cons e rest ih =>
    obtain ⟨q, g⟩ := e
    by_cases h : q = p
    · simp [fsInsert, fsFind, h]
    · simp [fsInsert, fsFind, h, ih]

theorem fsFind_insert_ne (fs : Fs) (p q : String) (f : FileData) (h : p ≠ q) :
    fsFind (fsInsert fs p f) q = fsFind fs q := by
  induction fs with
  | nil => simp [fsInsert, fsFind, h]
  | cons e rest ih =>
    obtain ⟨r, g⟩ := e
    by_cases hr : r = p
    · subst hr
      simp [fsInsert, fsFind, h]
    · simp [fsInsert, fsFind, hr, ih]

theorem fsFind_remove_self (fs : Fs) (p : String) :
    fsFind (fsRemove fs p) p = none := by
  induction fs with
  | nil => simp [fsRemove, fsFind]
  | cons e rest ih =>
    obtain ⟨q, g⟩ := e
    by_cases h : q = p
    · simpa [fsRemove, fsFind, h] using ih
    · simpa [fsRemove, fsFind, h] using ih

theorem fsInsert_insert (fs : Fs) (p : String) (f g : FileData) :
    fsInsert (fsInsert fs p f) p g = fsInsert fs p g := by
  induction fs with
  | nil => simp [fsInsert]
  | cons e rest ih =>
    obtain ⟨q, h⟩ := e
    by_cases hq : q = p
    · simp [fsInsert, hq]
    · simp [fsInsert, hq, ih]

theorem computeChecksumCounted_fst (H : List Nat → List Nat) (fs : Fs) (path : String) :
    (computeChecksumCounted H fs path).1 = ComputeChecksum H fs path := by
  unfold computeChecksumCounted ComputeChecksum
  cases fsFind fs path <;> rfl

theorem verifyUploadCounted_fst (H : List Nat → List Nat) (fs : Fs)
    (uploadId expectedChecksum : String) :
    (verifyUploadCounted H fs uploadId expectedChecksum).1
      = verifyUpload H fs uploadId expectedChecksum := by
  unfold verifyUploadCounted verifyUpload computeChecksumCounted ComputeChecksum
  cases fsFind fs (getUploadFilePath uploadId) <;> rfl

theorem startsWithChars_append (l t : List Char) :
    startsWithChars l (l ++ t) = true := by
  induction l with
  | nil => rfl
  | cons c cs ih => simp [startsWithChars, ih]

theorem isPendingPath_upload (uploadId : String) :
    isPendingPath (getUploadFilePath uploadId) = true := by
  have h : (getUploadFilePath uploadId).data = ".pending/".data ++ uploadId.data := rfl
  rw [isPendingPath, h, startsWithChars_append]

/-- Success characterisation of writePart: when the file exists and the
offset is non-negative, the call replaces its bytes by the positioned write
and reports the optional chunk digest. -/
theorem writePart_ok (H : List Nat → List Nat) (fs : Fs) (path : String)
    (data : List Nat) (off : Int) (ch : Bool) (now : Nat) (f : FileData)
    (hf : fsFind fs path = some f) (hoff : ¬ off < 0) :
    writePart H fs path data off ch now
      = (fsInsert fs path ⟨writeBytes f.bytes off.toNat data, now⟩,
         .ok (if ch then some (hexEncode (H data)) else none)) := by
  unfold writePart
  rw [hf]
  simp [hoff]

/-- Inversion: a writePart call that returned ok must have found the file,
have had a non-negative offset, and performed exactly the positioned write. -/
theorem writePart_ok_inv (H : List Nat → List Nat) (fs : Fs) (path : String)
    (data : List Nat) (off : Int) (ch : Bool) (now : Nat) (fs2 : Fs)
    (r : Option String)
    (h : writePart H fs path data off ch now = (fs2, .ok r)) :
    ∃ f, fsFind fs path = some f ∧ ¬ off < 0 ∧
      fs2 = fsInsert fs path ⟨writeBytes f.bytes off.toNat data, now⟩ ∧
      r = (if ch then some (hexEncode (H data)) else none) := by
  unfold writePart at h
  split at h
  · simp at h
  · rename_i f hf
    split at h
    · simp at h
    · rename_i hoff
      refine ⟨f, hf, hoff, (congrArg Prod.fst h).symm, ?_⟩
      exact (Except.ok.inj (congrArg Prod.snd h)).symm

/-- A writePart call that fails to open the file (absent path) or to seek
(negative offset) leaves the filesystem unchanged. -/
theorem writePart_fail_frame (H : List Nat → List Nat) (fs : Fs) (path : String)
    (data : List Nat) (off : Int) (ch : Bool) (now : Nat)
    (h : fsFind fs path = none ∨ off < 0) :
    (writePart H fs path data off ch now).1 = fs := by
  unfold writePart
  split
  · rfl
  · rename_i f hf
    rcases h with h | h
    · rw [hf] at h
      exact absurd h (by simp)
    · rw [if_pos h]

/-- Creating an upload with a fresh id and a non-negative declared size
stores a zero-filled artifact of exactly that size at the pending path. -/
theorem createUpload_fresh (fs : Fs) (uploadId : String) (size : Int) (now : Nat)
    (h0 : fsFind fs (getUploadFilePath uploadId) = none) (hsz : 0 ≤ size) :
    createUpload fs uploadId size now
      = (fsInsert fs (getUploadFilePath uploadId) ⟨List.replicate size.toNat 0, now⟩,
         .ok ()) := by
  unfold createUpload createFile truncateBytes
  rw [h0]
  simp only [if_neg (Int.not_lt.mpr hsz)]
  simp [fsInsert_insert]

/-- C6: performing the same offset-addressed chunk write twice with identical
bytes yields an artifact bit-identical to performing it once — writePart is
idempotent on identical range rewrites (the repeated call also returns the
same optional chunk digest). -/
theorem c6_writePart_idempotent (H : List Nat → List Nat) (fs fs2 : Fs)
    (path : String) (data : List Nat) (off : Int) (ch : Bool) (now : Nat)
    (r : Option String)
    (h : writePart H fs path data off ch now = (fs2, .ok r)) :
    writePart H fs2 path data off ch now = (fs2, .ok r) := by
  obtain ⟨f, hf, hoff, hfs2, hr⟩ := writePart_ok_inv H fs path data off ch now fs2 r h
  subst hfs2
  subst hr
  rw [writePart_ok H _ path data off ch now ⟨writeBytes f.bytes off.toNat data, now⟩
    (fsFind_insert_self fs path _) hoff]
  rw [writeBytes_idem, fsInsert_insert]

/-- C6 witness: a concrete repeated write evaluated on a closed input. -/
theorem c6_witness :
    writePart sampleHash [("p", ⟨[0, 7], 5⟩)] "p" [7] 1 false 5
      = ([("p", ⟨[0, 7], 5⟩)], .ok none) :=
  c6_writePart_idempotent sampleHash [("p", ⟨[0, 0], 0⟩)] [("p", ⟨[0, 7], 5⟩)]
    "p" [7] 1 false 5 none (by decide)

/-- C10: a successful chunk write of the bytes data at offset off replaces
the artifact by the positioned write, whose length is the maximum of the old
length and off plus the chunk length, and which agrees with the old bytes at
every old index outside the written range; a write that fails while opening
(absent path) or seeking (negative offset) leaves the filesystem unchanged. -/
theorem c10_writePart_frame (H : List Nat → List Nat) (fs : Fs) (path : String)
    (data : List Nat) (off : Int) (ch : Bool) (now : Nat) (f : FileData)
    (hf : fsFind fs path = some f) (hoff : 0 ≤ off) :
    writePart H fs path data off ch now
        = (fsInsert fs path ⟨writeBytes f.bytes off.toNat data, now⟩,
           .ok (if ch then some (hexEncode (H data)) else none))
      ∧ (writeBytes f.bytes off.toNat data).length
          = max f.bytes.length (off.toNat + data.length)
      ∧ (∀ i, i < f.bytes.length → i < off.toNat ∨ off.toNat + data.length ≤ i →
          (writeBytes f.bytes off.toNat data)[i]? = f.bytes[i]?)
      ∧ (∀ fs2 path2 data2 off2 ch2 now2, fsFind (fs2 : Fs) path2 = none ∨ (off2 : Int) < 0 →
          (writePart H fs2 path2 data2 off2 ch2 now2).1 = fs2) := by
  refine ⟨writePart_ok H fs path data off ch now f hf (Int.not_lt.mpr hoff),
    length_writeBytes f.bytes off.toNat data, ?_, ?_⟩
  · intro i hi hrange
    rw [writeBytes_getElem? f.bytes off.toNat data i]
    rcases hrange with hr | hr
    · rw [if_pos hr, if_pos hi]
    · have h1 : ¬ i < off.toNat := by omega
      have h2 : ¬ i < off.toNat + data.length := by omega
      rw [if_neg h1, if_neg h2]
  · intro fs2 path2 data2 off2 ch2 now2 hcase
    exact writePart_fail_frame H fs2 path2 data2 off2 ch2 now2 hcase

/-- C10 witness: the frame property evaluated on a closed input. -/
theorem c10_witness :
    writePart sampleHash [("p", ⟨[1, 2, 3], 0⟩)] "p" [9] 1 false 7
      = ([("p", ⟨[1, 9, 3], 7⟩)], .ok none) := by
  rw [(c10_writePart_frame sampleHash [("p", ⟨[1, 2, 3], 0⟩)] "p" [9] 1 false 7
    ⟨[1, 2, 3], 0⟩ (by decide) (by decide)).1]
  decide

/-- C5 counterexample: with a session created at declared size 2, a write of
three bytes at offset 1 (offset plus length exceeds the declared size) does
NOT fail with a RangeError: it succeeds and mutates the artifact, which grows
from the preallocated two zero bytes to four bytes. -/
theorem c5_counterexample :
    (createUpload [] "u" 2 0).2 = .ok ()
      ∧ fsFind (createUpload [] "u" 2 0).1 (getUploadFilePath "u") = some ⟨[0, 0], 0⟩
      ∧ (UploadChunk sampleHash (createUpload [] "u" 2 0).1 "u" [7, 7, 7] 1 false 1).2
          = .ok none
      ∧ fsFind (UploadChunk sampleHash (createUpload [] "u" 2 0).1 "u" [7, 7, 7] 1 false 1).1
          (getUploadFilePath "u") = some ⟨[0, 7, 7, 7], 1⟩ := by
  decide

/-- C5 amended: index.go performs no bound check against the declared size.
A chunk write with offset + len(data) exceeding the preallocated artifact
length (the declared size) succeeds — no RangeError exists — and the
artifact grows to exactly offset + len(data) bytes. -/
theorem c5_amended_no_range_check (H : List Nat → List Nat) (fs : Fs)
    (uploadId : String) (data : List Nat) (off : Int) (ch : Bool) (now : Nat)
    (f : FileData) (hf : fsFind fs (getUploadFilePath uploadId) = some f)
    (hoff : 0 ≤ off) (hover : f.bytes.length < off.toNat + data.length) :
    (UploadChunk H fs uploadId data off ch now).2
        = .ok (if ch then some (hexEncode (H data)) else none)
      ∧ fsFind (UploadChunk H fs uploadId data off ch now).1 (getUploadFilePath uploadId)
          = some ⟨writeBytes f.bytes off.toNat data, now⟩
      ∧ (writeBytes f.bytes off.toNat data).length = off.toNat + data.length := by
  have h := writePart_ok H fs (getUploadFilePath uploadId) data off ch now f hf
    (Int.not_lt.mpr hoff)
  unfold UploadChunk
  rw [h]
  refine ⟨rfl, fsFind_insert_self fs (getUploadFilePath uploadId) _, ?_⟩
  rw [length_writeBytes]
  omega

/-- C5 witness: the amended statement evaluated on a closed input. -/
theorem c5_witness :
    (UploadChunk sampleHash [(".pending/u", ⟨[0, 0], 0⟩)] "u" [7, 7, 7] 1 false 1).2
        = .ok none
      ∧ fsFind (UploadChunk sampleHash [(".pending/u", ⟨[0, 0], 0⟩)] "u" [7, 7, 7] 1 false 1).1
          (getUploadFilePath "u") = some ⟨[0, 7, 7, 7], 1⟩ := by
  have h := c5_amended_no_range_check sampleHash [(".pending/u", ⟨[0, 0], 0⟩)] "u"
    [7, 7, 7] 1 false 1 ⟨[0, 0], 0⟩ (by decide) (by decide) (by decide)
  exact ⟨h.1, by rw [h.2.1]; decide⟩

/-- FinishUpload succeeds exactly when the artifact's hex digest equals
the expected checksum as strings (index.go compares with Go string
inequality, so this equality is exact and case-sensitive). -/
theorem finishUpload_iff (H : List Nat → List Nat) (fs : Fs) (uploadId : String)
    (expectedChecksum : String) (f : FileData)
    (hf : fsFind fs (getUploadFilePath uploadId) = some f) :
    FinishUpload H fs uploadId expectedChecksum = .ok ()
      ↔ hexEncode (H f.bytes) = expectedChecksum := by
  unfold FinishUpload verifyUpload ComputeChecksum
  rw [hf]
  by_cases h : hexEncode (H f.bytes) = expectedChecksum
  · simp [h]
  · simp [h]

/-- C4 counterexample: the artifact's digest here is the string ab, and
finishing with its uppercase spelling AB is rejected with the mismatch error
while the lowercase spelling succeeds — the comparison is not
case-insensitive as the claim states. -/
theorem c4_counterexample :
    hexEncode (sampleHash [171]) = "ab"
      ∧ FinishUpload sampleHash [(".pending/u", ⟨[171], 0⟩)] "u" "ab" = .ok ()
      ∧ FinishUpload sampleHash [(".pending/u", ⟨[171], 0⟩)] "u" "AB"
          = .error .checksumMismatch := by
  decide

/-- C4 amended: finish succeeds exactly when the hex digest of the artifact
equals the expected checksum by exact, case-sensitive string equality; only
the lowercase hex spelling produced by hex.EncodeToString is accepted. -/
theorem c4_amended_exact_comparison (H : List Nat → List Nat) (fs : Fs)
    (uploadId : String) (expectedChecksum : String) (f : FileData)
    (hf : fsFind fs (getUploadFilePath uploadId) = some f) :
    FinishUpload H fs uploadId expectedChecksum = .ok ()
      ↔ hexEncode (H f.bytes) = expectedChecksum :=
  finishUpload_iff H fs uploadId expectedChecksum f hf

/-- C4 witness: the exact-comparison characterisation applied on a closed
input. -/
theorem c4_witness :
    FinishUpload sampleHash [(".pending/u", ⟨[171], 0⟩)] "u" "ab" = .ok () :=
  (c4_amended_exact_comparison sampleHash [(".pending/u", ⟨[171], 0⟩)] "u" "ab"
    ⟨[171], 0⟩ (by decide)).mpr (by decide)

/-- C3 counterexample: finishing with a wrong checksum does fail with the
mismatch error, but the artifact is NOT discarded — it is still stored at the
pending path afterwards — and the session CAN be resumed: a later finish with
the correct checksum succeeds. -/
theorem c3_counterexample :
    FinishUpload sampleHash [(".pending/u", ⟨[171], 0⟩)] "u" "ff"
        = .error .checksumMismatch
      ∧ (FinishUploadHandler sampleHash [(".pending/u", ⟨[171], 0⟩)] "u" "ff").1
          = [(".pending/u", ⟨[171], 0⟩)]
      ∧ fsFind (FinishUploadHandler sampleHash [(".pending/u", ⟨[171], 0⟩)] "u" "ff").1
          (getUploadFilePath "u") = some ⟨[171], 0⟩
      ∧ FinishUpload sampleHash [(".pending/u", ⟨[171], 0⟩)] "u" "ab" = .ok () := by
  decide

/-- C3 amended: finishing with a checksum different from the artifact's
digest fails with the checksum-mismatch error, never renames or promotes the
artifact and applies no mutation at all (the handler returns the filesystem
unchanged); the artifact is retained and the session remains resumable —
a subsequent finish with the correct digest succeeds. -/
theorem c3_amended_mismatch_keeps_artifact (H : List Nat → List Nat) (fs : Fs)
    (uploadId : String) (expectedChecksum : String) (f : FileData)
    (hf : fsFind fs (getUploadFilePath uploadId) = some f)
    (hne : hexEncode (H f.bytes) ≠ expectedChecksum)
    (hexp : expectedChecksum ≠ "") :
    FinishUpload H fs uploadId expectedChecksum = .error .checksumMismatch
      ∧ FinishUploadHandler H fs uploadId expectedChecksum
          = (fs, .error .checksumMismatch)
      ∧ FinishUpload H fs uploadId (hexEncode (H f.bytes)) = .ok () := by
  have h1 : FinishUpload H fs uploadId expectedChecksum = .error .checksumMismatch := by
    unfold FinishUpload verifyUpload ComputeChecksum
    rw [hf]
    simp [hne]
  refine ⟨h1, ?_, (finishUpload_iff H fs uploadId _ f hf).mpr rfl⟩
  unfold FinishUploadHandler
  rw [if_neg hexp, h1]

/-- C3 witness: the amended statement applied on a closed input. -/
theorem c3_witness :
    FinishUpload sampleHash [(".pending/u", ⟨[171], 0⟩)] "u" "ff"
      = .error .checksumMismatch :=
  (c3_amended_mismatch_keeps_artifact sampleHash [(".pending/u", ⟨[171], 0⟩)] "u" "ff"
    ⟨[171], 0⟩ (by decide) (by decide) (by decide)).1

/-- C2 counterexample: a finish with the matching checksum succeeds, but the
artifact afterwards STILL resides under the pending namespace (the handler
even answers with the pending path), contradicting the claim that a
successful finish moves the artifact and removes the session. -/
theorem c2_counterexample :
    (FinishUploadHandler sampleHash [(".pending/u", ⟨[171], 0⟩)] "u" "ab").2
        = .ok ".pending/u"
      ∧ fsFind (FinishUploadHandler sampleHash [(".pending/u", ⟨[171], 0⟩)] "u" "ab").1
          ".pending/u" = some ⟨[171], 0⟩ := by
  decide

/-- C2 amended: a finish whose expected checksum equals the artifact's digest
succeeds, but index.go moves nothing and removes nothing: the handler answers
with the PENDING path and leaves the filesystem unchanged, so the artifact
still resides under the pending namespace. Promotion is the separate
RenameUploadedFile operation, which creates the destination's parent
directories and moves the artifact out of the pending namespace. -/
theorem c2_amended_finish_leaves_pending (H : List Nat → List Nat) (fs : Fs)
    (uploadId : String) (checksum : String) (f : FileData)
    (hf : fsFind fs (getUploadFilePath uploadId) = some f)
    (hcs : hexEncode (H f.bytes) = checksum) (hne : checksum ≠ "") :
    FinishUploadHandler H fs uploadId checksum = (fs, .ok (getUploadFilePath uploadId))
      ∧ fsFind fs (getUploadFilePath uploadId) = some f
      ∧ ∀ dest, dest ≠ getUploadFilePath uploadId →
          RenameUploadedFile fs uploadId dest
              = (fsInsert (fsRemove fs (getUploadFilePath uploadId)) dest f, .ok ())
            ∧ fsFind (fsInsert (fsRemove fs (getUploadFilePath uploadId)) dest f) dest
                = some f
            ∧ fsFind (fsInsert (fsRemove fs (getUploadFilePath uploadId)) dest f)
                (getUploadFilePath uploadId) = none := by
  have hok : FinishUpload H fs uploadId checksum = .ok () :=
    (finishUpload_iff H fs uploadId checksum f hf).mpr hcs
  refine ⟨?_, hf, ?_⟩
  · unfold FinishUploadHandler
    rw [if_neg hne, hok]
  · intro dest hdest
    refine ⟨by simp [RenameUploadedFile, hf], fsFind_insert_self _ _ _, ?_⟩
    rw [fsFind_insert_ne _ dest (getUploadFilePath uploadId) f hdest]
    exact fsFind_remove_self fs (getUploadFilePath uploadId)

/-- C2 witness: the amended statement applied on a closed input. -/
theorem c2_witness :
    FinishUploadHandler sampleHash [(".pending/u", ⟨[171], 0⟩)] "u" "ab"
      = ([(".pending/u", ⟨[171], 0⟩)], .ok (getUploadFilePath "u")) :=
  (c2_amended_finish_leaves_pending sampleHash [(".pending/u", ⟨[171], 0⟩)] "u" "ab"
    ⟨[171], 0⟩ (by decide) (by decide) (by decide)).1

/-- C9 counterexample: a declared size of zero is rejected by the create
handler with the validation error, although the claim requires every
declaredSize of at least zero — including zero — to succeed. -/
theorem c9_counterexample :
    CreateUploadHandler [] "u" 0 5 = ([], .error .invalidFileSize) := by
  decide

/-- C9 amended: the create handler fails with the validation error exactly
when the declared size is zero or negative, rejecting before any mutation;
for every positive declared size (and fresh id) it succeeds, storing the
zero-filled preallocated artifact and returning the fresh session id. -/
theorem c9_amended_create_validation (fs : Fs) (freshId : String) (size : Int)
    (now : Nat) (h0 : fsFind fs (getUploadFilePath freshId) = none) :
    (size ≤ 0 → CreateUploadHandler fs freshId size now = (fs, .error .invalidFileSize))
      ∧ (0 < size → CreateUploadHandler fs freshId size now
          = (fsInsert fs (getUploadFilePath freshId) ⟨List.replicate size.toNat 0, now⟩,
             .ok freshId)) := by
  constructor
  · intro h
    unfold CreateUploadHandler
    rw [if_pos h]
  · intro h
    have hc := createUpload_fresh fs freshId size now h0 (by omega)
    unfold CreateUploadHandler CreateUpload
    rw [if_neg (by omega : ¬ size ≤ 0)]
    simp [hc]

/-- C9 witness: the amended statement applied on a closed input. -/
theorem c9_witness :
    CreateUploadHandler [] "u" 3 5 = ([(".pending/u", ⟨[0, 0, 0], 5⟩)], .ok "u") := by
  rw [(c9_amended_create_validation [] "u" 3 5 (by decide)).2 (by decide)]
  decide

theorem fsFind_eq_none_of_not_mem (fs : Fs) (p : String)
    (h : p ∉ fs.map Prod.fst) : fsFind fs p = none := by
  induction fs with
  | nil => rfl
  | cons e rest ih =>
    obtain ⟨q, g⟩ := e
    simp only [List.map_cons, List.mem_cons] at h
    push_neg at h
    have hq : ¬ q = p := fun hq => h.1 hq.symm
    simp [fsFind, hq, ih h.2]

theorem fsFind_filter_none (fs : Fs) (p : String) (pred : String × FileData → Bool)
    (h : fsFind fs p = none) : fsFind (fs.filter pred) p = none := by
  induction fs with
  | nil => rfl
  | cons e rest ih =>
    obtain ⟨q, g⟩ := e
    by_cases hq : q = p
    · subst hq
      simp [fsFind] at h
    · simp only [fsFind, if_neg hq] at h
      by_cases hp : pred (q, g)
      · simp [List.filter_cons, hp, fsFind, hq, ih h]
      · simp [List.filter_cons, hp, ih h]

/-- Looking up a path in a filtered filesystem with unique paths: the file
survives exactly when the filter keeps its entry. -/
theorem fsFind_filter (fs : Fs) (p : String) (f : FileData)
    (pred : String × FileData → Bool)
    (hnodup : (fs.map Prod.fst).Nodup) (hf : fsFind fs p = some f) :
    fsFind (fs.filter pred) p = if pred (p, f) then some f else none := by
  induction fs with
  | nil => simp [fsFind] at hf
  | cons e rest ih =>
    obtain ⟨q, g⟩ := e
    simp only [List.map_cons, List.nodup_cons] at hnodup
    by_cases hq : q = p
    · subst hq
      have hgf : g = f := by simpa [fsFind] using hf
      subst hgf
      have hrest : fsFind rest q = none :=
        fsFind_eq_none_of_not_mem rest q hnodup.1
      by_cases hp : pred (q, g)
      · simp [List.filter_cons, hp, fsFind]
      · simp [List.filter_cons, hp, fsFind_filter_none rest q pred hrest]
    · simp only [fsFind, if_neg hq] at hf
      have := ih hnodup.2 hf
      by_cases hp : pred (q, g)
      · simp [List.filter_cons, hp, fsFind, hq, this]
      · simp [List.filter_cons, hp, this]

/-- Any operation on a missing pending file reports the not-found error. -/
theorem finishUpload_not_found (H : List Nat → List Nat) (fs : Fs)
    (uploadId expectedChecksum : String)
    (h : fsFind fs (getUploadFilePath uploadId) = none) :
    FinishUpload H fs uploadId expectedChecksum = .error .fileNotFound := by
  unfold FinishUpload verifyUpload ComputeChecksum
  rw [h]

theorem writePart_not_found (H : List Nat → List Nat) (fs : Fs) (path : String)
    (data : List Nat) (off : Int) (ch : Bool) (now : Nat)
    (h : fsFind fs path = none) :
    writePart H fs path data off ch now = (fs, .error .fileNotFound) := by
  unfold writePart
  rw [h]

/-- C7 counterexample: two finish calls on the same present artifact perform
two hash computations, not the single one the claim requires. -/
theorem c7_counterexample :
    finishCallHashCount sampleHash [(".pending/u", ⟨[171], 0⟩)] "u" "ab" 2 = 2
      ∧ finishCallHashCount sampleHash [(".pending/u", ⟨[171], 0⟩)] "u" "ab" 2 ≠ 1 := by
  decide

/-- C7 amended: index.go coalesces nothing — the singleflight group of the
historical variant is declared but never invoked, and FinishUpload is a bare
verifyUpload: n finish calls on a session whose artifact is present perform
exactly n artifact hash computations (one each, never a shared single one);
all n calls do observe the identical outcome, because verification is
read-only and deterministic. -/
theorem c7_amended_no_coalescing (H : List Nat → List Nat) (fs : Fs)
    (uploadId expectedChecksum : String) (f : FileData) (n : Nat)
    (hf : fsFind fs (getUploadFilePath uploadId) = some f) :
    finishCallHashCount H fs uploadId expectedChecksum n = n
      ∧ ∀ r ∈ finishCallResults H fs uploadId expectedChecksum n,
          r = FinishUpload H fs uploadId expectedChecksum := by
  constructor
  · simp only [finishCallHashCount, verifyUploadCounted, computeChecksumCounted, hf]
    simp
  · intro r hr
    simp only [finishCallResults, List.mem_map] at hr
    obtain ⟨a, _, hr⟩ := hr
    rw [← hr, verifyUploadCounted_fst]
    rfl

/-- C7 witness: the per-call hash count evaluated on a closed input. -/
theorem c7_witness :
    finishCallHashCount sampleHash [(".pending/u", ⟨[171], 0⟩)] "u" "ab" 3 = 3 :=
  (c7_amended_no_coalescing sampleHash [(".pending/u", ⟨[171], 0⟩)] "u" "ab"
    ⟨[171], 0⟩ 3 (by decide)).1

/-- C8 counterexample: a session stale beyond the TTL (mtime 0, limit 7)
survives the sweep untouched when the pending directory's own mtime is also
stale: the walk callback's failing Remove of the non-empty directory aborts
the walk, so the sweep removes nothing, and a subsequent chunk write on the
session still succeeds instead of failing with the not-found error. -/
theorem c8_counterexample :
    Cleanup [(".pending/a", ⟨[1], 0⟩)] 0 10 3 = [(".pending/a", ⟨[1], 0⟩)]
      ∧ (0 : Nat) < 10 - 3
      ∧ (writePart sampleHash (Cleanup [(".pending/a", ⟨[1], 0⟩)] 0 10 3)
          (getUploadFilePath "a") [5] 0 false 11).2 = .ok none := by
  decide

/-- C8 amended: provided the pending directory's own mtime is NOT older than
now minus the TTL (otherwise the aborting walk removes nothing), one sweep
removes exactly the pending files whose mtime is older than the limit:
a stale session's artifact is gone and every subsequent writePart or
FinishUpload on its id fails with the not-found error, while a session with
fresh activity is left untouched. -/
theorem c8_amended_sweep (fs : Fs) (rootMtime now duration : Nat)
    (uploadId : String) (f : FileData)
    (hnodup : (fs.map Prod.fst).Nodup)
    (hroot : ¬ rootMtime < now - duration)
    (hf : fsFind fs (getUploadFilePath uploadId) = some f) :
    (f.mtime < now - duration →
        fsFind (Cleanup fs rootMtime now duration) (getUploadFilePath uploadId) = none
      ∧ (∀ H data off ch t,
          writePart H (Cleanup fs rootMtime now duration) (getUploadFilePath uploadId)
              data off ch t
            = (Cleanup fs rootMtime now duration, .error .fileNotFound))
      ∧ (∀ H expected,
          FinishUpload H (Cleanup fs rootMtime now duration) uploadId expected
            = .error .fileNotFound))
    ∧ (¬ f.mtime < now - duration →
        fsFind (Cleanup fs rootMtime now duration) (getUploadFilePath uploadId)
          = some f) := by
  have hclean : Cleanup fs rootMtime now duration
      = fs.filter (fun e => !(isPendingPath e.1 && decide (e.2.mtime < now - duration))) := by
    unfold Cleanup
    simp [hroot]
  have hfilter := fsFind_filter fs (getUploadFilePath uploadId) f
    (fun e => !(isPendingPath e.1 && decide (e.2.mtime < now - duration))) hnodup hf
  constructor
  · intro hstale
    have hnone : fsFind (Cleanup fs rootMtime now duration)
        (getUploadFilePath uploadId) = none := by
      rw [hclean, hfilter]
      simp [isPendingPath_upload, hstale]
    refine ⟨hnone, ?_, ?_⟩
    · intro H data off ch t
      exact writePart_not_found H _ _ data off ch t hnone
    · intro H expected
      exact finishUpload_not_found H _ uploadId expected hnone
  · intro hfresh
    rw [hclean, hfilter]
    simp [isPendingPath_upload, hfresh]

/-- C8 witness: the amended sweep applied on a closed input with a fresh
pending directory, one stale session and one fresh session. -/
theorem c8_witness :
    fsFind (Cleanup [(".pending/a", ⟨[1], 0⟩), (".pending/b", ⟨[2], 9⟩)] 9 10 3)
      (getUploadFilePath "a") = none :=
  ((c8_amended_sweep [(".pending/a", ⟨[1], 0⟩), (".pending/b", ⟨[2], 9⟩)] 9 10 3
    "a" ⟨[1], 0⟩ (by decide) (by decide) (by decide)).1 (by decide)).1

theorem chunkOf_length (src : List Nat) (C j : Nat) :
    (chunkOf src C j).length = min C (src.length - j * C) := by
  simp [chunkOf]

theorem chunkOf_getElem? (src : List Nat) (C j k : Nat) :
    (chunkOf src C j)[k]? = if k < C then src[j * C + k]? else none := by
  unfold chunkOf
  rw [List.getElem?_take]
  by_cases h : k < C
  · rw [if_pos h, if_pos h, List.getElem?_drop]
  · rw [if_neg h, if_neg h]

/-- The number of chunks is exactly the number of chunk indices whose start
offset lies inside the file. -/
theorem lt_numChunks_iff (S C : Nat) (hC : 0 < C) (j : Nat) :
    j < numChunks S C ↔ j * C < S := by
  unfold numChunks
  rcases Nat.eq_zero_or_pos S with hS | hS
  · subst hS
    have h0 : (0 + C - 1) / C = 0 := Nat.div_eq_of_lt (by omega)
    rw [h0]
    simp
  · have hiff : j + 1 ≤ (S + C - 1) / C ↔ (j + 1) * C ≤ S + C - 1 :=
      Nat.le_div_iff_mul_le hC
    constructor
    · intro h
      have h2 := hiff.mp (by omega)
      rw [Nat.succ_mul] at h2
      omega
    · intro h
      have h2 : (j + 1) * C ≤ S + C - 1 := by
        rw [Nat.succ_mul]
        omega
      have := hiff.mpr h2
      omega

/-- Invariant of the pure chunk fold: it preserves the artifact's length,
fixes every byte covered by some listed chunk to the source's byte, and
leaves every uncovered byte as it was. -/
theorem applyChunks_spec (src : List Nat) (C : Nat) :
    ∀ (order : List Nat) (b : List Nat), b.length = src.length →
      (∀ j ∈ order, j * C < src.length) →
      (applyChunks src C order b).length = src.length
        ∧ ∀ i, i < src.length →
          ((∃ j ∈ order, j * C ≤ i ∧ i < j * C + C) →
            (applyChunks src C order b)[i]? = src[i]?)
          ∧ ((∀ j ∈ order, ¬(j * C ≤ i ∧ i < j * C + C)) →
            (applyChunks src C order b)[i]? = b[i]?) := by
  intro order
  induction order with
  | nil =>
    intro b hb _
    refine ⟨hb, fun i hi => ⟨?_, fun _ => rfl⟩⟩
    rintro ⟨j, hj, _⟩
    exact absurd hj (List.not_mem_nil j)
  | cons j rest ih =>
    intro b hb hl
    have hjC : j * C < src.length := hl j (List.mem_cons_self j rest)
    have hchunklen : (chunkOf src C j).length = min C (src.length - j * C) :=
      chunkOf_length src C j
    have hb1len : (writeBytes b (j * C) (chunkOf src C j)).length = src.length := by
      rw [length_writeBytes, hchunklen, hb]
      omega
    have hwrite_in : ∀ i, i < src.length → j * C ≤ i → i < j * C + C →
        (writeBytes b (j * C) (chunkOf src C j))[i]? = src[i]? := by
      intro i hi h1 h2
      rw [writeBytes_getElem?, if_neg (by omega : ¬ i < j * C),
        if_pos (by rw [hchunklen]; omega), chunkOf_getElem?,
        if_pos (by omega : i - j * C < C),
        (by omega : j * C + (i - j * C) = i)]
    have hwrite_out : ∀ i, i < src.length → ¬(j * C ≤ i ∧ i < j * C + C) →
        (writeBytes b (j * C) (chunkOf src C j))[i]? = b[i]? := by
      intro i hi hno
      by_cases h1 : i < j * C
      · rw [writeBytes_getElem?, if_pos h1, if_pos (by omega : i < b.length)]
      · have h2 : ¬ i < j * C + (chunkOf src C j).length := by
          rw [hchunklen]
          omega
        rw [writeBytes_getElem?, if_neg h1, if_neg h2]
    have hrest : ∀ j2 ∈ rest, j2 * C < src.length :=
      fun j2 hj2 => hl j2 (List.mem_cons_of_mem j hj2)
    obtain ⟨ihlen, ihpt⟩ := ih (writeBytes b (j * C) (chunkOf src C j)) hb1len hrest
    have hstep : applyChunks src C (j :: rest) b
        = applyChunks src C rest (writeBytes b (j * C) (chunkOf src C j)) := rfl
    rw [hstep]
    refine ⟨ihlen, fun i hi => ⟨?_, ?_⟩⟩
    · rintro ⟨j2, hj2, hrange⟩
      by_cases hcov : ∃ jj ∈ rest, jj * C ≤ i ∧ i < jj * C + C
      · exact (ihpt i hi).1 hcov
      · have hj2j : j2 = j := by
          rcases List.mem_cons.mp hj2 with h | h
          · exact h
          · exact absurd ⟨j2, h, hrange⟩ hcov
        subst hj2j
        have hnotcov : ∀ jj ∈ rest, ¬(jj * C ≤ i ∧ i < jj * C + C) :=
          fun jj hjj hr => hcov ⟨jj, hjj, hr⟩
        rw [(ihpt i hi).2 hnotcov]
        exact hwrite_in i hi hrange.1 hrange.2
    · intro hnone
      have hnotcov : ∀ jj ∈ rest, ¬(jj * C ≤ i ∧ i < jj * C + C) :=
        fun jj hjj => hnone jj (List.mem_cons_of_mem j hjj)
      rw [(ihpt i hi).2 hnotcov]
      exact hwrite_out i hi (hnone j (List.mem_cons_self j rest))

/-- Writing any list of in-bounds chunks succeeds, and the resulting
pending artifact holds exactly the pure chunk fold of the listed chunks. -/
theorem uploadChunksExc_ok (H : List Nat → List Nat) (uploadId : String)
    (src : List Nat) (C : Nat) (now : Nat) :
    ∀ (order : List Nat) (fs : Fs) (g : List Nat) (t : Nat),
      fsFind fs (getUploadFilePath uploadId) = some ⟨g, t⟩ →
      ∃ fs2 t2, uploadChunksExc H fs uploadId src C order now = .ok fs2
        ∧ fsFind fs2 (getUploadFilePath uploadId)
            = some ⟨applyChunks src C order g, t2⟩ := by
  intro order
  induction order with
  | nil =>
    intro fs g t hfs
    exact ⟨fs, t, rfl, hfs⟩
  | cons j rest ih =>
    intro fs g t hfs
    have hoff : ¬ ((j * C : Nat) : Int) < 0 :=
      Int.not_lt.mpr (Int.natCast_nonneg _)
    have hw := writePart_ok H fs (getUploadFilePath uploadId) (chunkOf src C j)
      ((j * C : Nat) : Int) false now ⟨g, t⟩ hfs hoff
    obtain ⟨fs2, t2, hexc, hfind⟩ := ih
      (fsInsert fs (getUploadFilePath uploadId)
        ⟨writeBytes g (j * C) (chunkOf src C j), now⟩)
      (writeBytes g (j * C) (chunkOf src C j)) now
      (fsFind_insert_self _ _ _)
    refine ⟨fs2, t2, ?_, hfind⟩
    unfold uploadChunksExc UploadChunk
    rw [hw]
    exact hexc

/-- C1: for every source file, every chunk size C above zero and every
permutation of the chunk indices: creating the upload with the declared
size of the source, writing each chunk at its own byte offset via writePart
in that permutation order, and finishing with the hex digest of the source
all succeed, and the stored pending artifact is byte-identical to the
source. -/
theorem c1_upload_permutation (H : List Nat → List Nat) (src : List Nat) (C : Nat)
    (hC : 0 < C) (freshId : String) (fs : Fs) (now : Nat)
    (h0 : fsFind fs (getUploadFilePath freshId) = none)
    (order : List Nat)
    (hperm : order.Perm (List.range (numChunks src.length C))) :
    (createUpload fs freshId (src.length : Int) now).2 = .ok ()
      ∧ ∃ fs2 t2,
          uploadChunksExc H (createUpload fs freshId (src.length : Int) now).1
              freshId src C order now = .ok fs2
            ∧ fsFind fs2 (getUploadFilePath freshId) = some ⟨src, t2⟩
            ∧ FinishUpload H fs2 freshId (hexEncode (H src)) = .ok () := by
  have hcr := createUpload_fresh fs freshId (src.length : Int) now h0
    (Int.natCast_nonneg _)
  constructor
  · rw [hcr]
  · have hfs1 : fsFind (createUpload fs freshId (src.length : Int) now).1
        (getUploadFilePath freshId) = some ⟨List.replicate src.length 0, now⟩ := by
      rw [hcr]
      exact fsFind_insert_self fs (getUploadFilePath freshId) _
    obtain ⟨fs2, t2, hexc, hfind⟩ := uploadChunksExc_ok H freshId src C now order
      (createUpload fs freshId (src.length : Int) now).1
      (List.replicate src.length 0) now hfs1
    have hl : ∀ j ∈ order, j * C < src.length := by
      intro j hj
      have hmem : j ∈ List.range (numChunks src.length C) := hperm.mem_iff.mp hj
      exact (lt_numChunks_iff src.length C hC j).mp (List.mem_range.mp hmem)
    obtain ⟨hlen, hpt⟩ := applyChunks_spec src C order
      (List.replicate src.length 0) (by simp) hl
    have happ : applyChunks src C order (List.replicate src.length 0) = src := by
      apply List.ext_getElem?
      intro i
      by_cases hi : i < src.length
      · apply (hpt i hi).1
        refine ⟨i / C, ?_, Nat.div_mul_le_self i C, ?_⟩
        · apply hperm.mem_iff.mpr
          apply List.mem_range.mpr
          apply (lt_numChunks_iff src.length C hC _).mpr
          have h2 : i / C * C ≤ i := Nat.div_mul_le_self i C
          omega
        · have hmod : i % C < C := Nat.mod_lt i hC
          have hdm := Nat.div_add_mod i C
          have hcomm : C * (i / C) = i / C * C := Nat.mul_comm C (i / C)
          omega
      · rw [List.getElem?_eq_none (by omega : (applyChunks src C order
          (List.replicate src.length 0)).length ≤ i),
          List.getElem?_eq_none (by omega : src.length ≤ i)]
    rw [happ] at hfind
    exact ⟨fs2, t2, hexc, hfind,
      (finishUpload_iff H fs2 freshId _ ⟨src, t2⟩ hfind).mpr rfl⟩

/-- C1 witness: a three-byte source uploaded in two chunks of size two, in
reversed order, on a closed input. -/
theorem c1_witness :
    (createUpload [] "u" (([1, 2, 3] : List Nat).length : Int) 0).2 = .ok ()
      ∧ ∃ fs2 t2,
          uploadChunksExc sampleHash (createUpload [] "u"
              (([1, 2, 3] : List Nat).length : Int) 0).1 "u" [1, 2, 3] 2 [1, 0] 0
            = .ok fs2
          ∧ fsFind fs2 (getUploadFilePath "u") = some ⟨[1, 2, 3], t2⟩
          ∧ FinishUpload sampleHash fs2 "u" (hexEncode (sampleHash [1, 2, 3]))
              = .ok () :=
  c1_upload_permutation sampleHash [1, 2, 3] 2 (by decide) "u" [] 0 (by decide)
    [1, 0] (by decide)

end ChunkedUploader
